import Mathlib

set_option maxRecDepth 40000

/-!
Verification model of the LeaseSet subsystem (src/libi2pd/LeaseSet.cpp).

The C++ code is shallowly embedded: byte buffers become `List Nat` (one Nat
per byte), machine integers become `Nat` with explicit reduction mod 2^64,
2^32 or 2^16 where the C++ performs unsigned wrap-around arithmetic, and the
mutable record state becomes explicit state passing.  External collaborators
that are not part of src/ (the IdentityEx class, the verifier factory, the
tunnel objects and the header constants of LeaseSet.h, Tunnel.h and
NetDb.hpp) are modelled from the spec as parameters or named constants; each
such definition carries a comment saying so.  Every decode additionally
reports whether the C++ original would have dereferenced a byte at an index
at or past the supplied buffer length (the `oob` flags), which the C++ code
cannot observe but which the safety claims are about.
-/

/-- Byte access `buf[i]`.  The C++ reads whatever memory is there; the model
returns 0 for indices past the end, and every place where such a read can
happen also records an out-of-bounds flag. -/
def byteAt (buf : List Nat) (i : Nat) : Nat := buf.getD i 0

/-- Big-endian 16-bit read, as `bufbe16toh` from I2PEndian. -/
def bufbe16toh (buf : List Nat) (i : Nat) : Nat :=
  byteAt buf i * 2^8 + byteAt buf (i+1)

/-- Big-endian 32-bit read, as `bufbe32toh` from I2PEndian. -/
def bufbe32toh (buf : List Nat) (i : Nat) : Nat :=
  byteAt buf i * 2^24 + byteAt buf (i+1) * 2^16 + byteAt buf (i+2) * 2^8 + byteAt buf (i+3)

/-- Big-endian 64-bit read, as `bufbe64toh` from I2PEndian. -/
def bufbe64toh (buf : List Nat) (i : Nat) : Nat :=
  byteAt buf i * 2^56 + byteAt buf (i+1) * 2^48 + byteAt buf (i+2) * 2^40 +
  byteAt buf (i+3) * 2^32 + byteAt buf (i+4) * 2^24 + byteAt buf (i+5) * 2^16 +
  byteAt buf (i+6) * 2^8 + byteAt buf (i+7)

/-- The `n` bytes of `buf` starting at index `i` (a `memcpy` source region). -/
def sliceBytes (buf : List Nat) (i n : Nat) : List Nat := (buf.drop i).take n

/-- uint64 addition (wraps mod 2^64). -/
def add64 (a b : Nat) : Nat := (a + b) % 2^64

/-- uint64 subtraction `a - b` (wraps mod 2^64 on underflow). -/
def sub64 (a b : Nat) : Nat := (a % 2^64 + 2^64 - b % 2^64) % 2^64

/-- Modelled from the spec: `MAX_NUM_LEASES`, the fixed maximum lease count
per record, identical across all variants (declared in LeaseSet.h, which is
not under src/).  The exact numeric value is immaterial to the theorems. -/
def MAX_NUM_LEASES : Nat := 16

/-- Modelled from the spec: `LEASE_ENDDATE_THRESHOLD`, the fixed millisecond
freshness threshold (declared in LeaseSet.h, which is not under src/).  The
exact numeric value is immaterial to the theorems; only that it is a fixed
positive uint64 constant. -/
def LEASE_ENDDATE_THRESHOLD : Nat := 51000

/-- Legacy wire size of one lease: 32-byte gateway + 4-byte tunnel id +
8-byte end date. -/
def LEASE_SIZE : Nat := 44

/-- LeaseSet2 wire size of one lease: 32-byte gateway + 4-byte tunnel id +
4-byte end date (seconds). -/
def LEASE2_SIZE : Nat := 40

/-- One ingress point, as `struct Lease`: gateway identity hash (32 bytes,
kept as the byte list), tunnel id, end date in milliseconds, and the
transient reconciliation flag `isUpdated`. -/
structure Lease where
  tunnelGateway : List Nat
  tunnelID : Nat
  endDate : Nat
  isUpdated : Bool
deriving DecidableEq, Repr

/-- A lease as decoded from the wire before it is merged into the set (the
local `Lease lease;` variable of the decode loops). -/
structure RawLease where
  tunnelGateway : List Nat
  tunnelID : Nat
  endDate : Nat
deriving DecidableEq, Repr

/-- Identity of a lease inside the set: the (gateway, tunnelId) pair.
Modelled from the spec: two leases are equal iff this pair matches,
regardless of endDate (the set comparator lives in LeaseSet.h, not src/). -/
def Lease.key (l : Lease) : List Nat × Nat := (l.tunnelGateway, l.tunnelID)

/-- Key of an incoming wire lease. -/
def RawLease.key (j : RawLease) : List Nat × Nat := (j.tunnelGateway, j.tunnelID)

/-- The external IdentityEx collaborator, modelled from the spec (the class
is declared outside src/): the lengths the decoder queries and the signature
verification function `verify data signature`. -/
structure IdentityEx where
  fullLen : Nat
  signingPublicKeyLen : Nat
  signatureLen : Nat
  verify : List Nat → List Nat → Bool

/-- The external Verifier collaborator for LeaseSet2 (created by the verifier
factory for a key type code): `verify publicKey data signature`. -/
structure Verifier where
  publicKeyLen : Nat
  signatureLen : Nat
  verify : List Nat → List Nat → List Nat → Bool

/-- The mutable state of a remote LeaseSet record that the legacy decode
touches: validity flag, materialization flag, aggregate expiration, the
copied 256-byte encryption key and the live lease set (the std::set is kept
as a list; insertion appends, updates are in place). -/
structure LSState where
  isValid : Bool
  storeLeases : Bool
  expirationTime : Nat
  encryptionKey : List Nat
  leases : List Lease
deriving DecidableEq, Repr

/-- State of a record as the two-argument constructor leaves it right before
`ReadFromBuffer` runs: `m_IsValid = true`, empty lease set. -/
def initialLSState (storeLeases : Bool) : LSState :=
  { isValid := true, storeLeases := storeLeases, expirationTime := 0,
    encryptionKey := [], leases := [] }

/-- `LeaseSet::UpdateLeasesBegin`: if materializing, mark every held lease as
not updated; otherwise clear the set. -/
def UpdateLeasesBegin (storeLeases : Bool) (ls : List Lease) : List Lease :=
  if storeLeases then ls.map (fun l => { l with isUpdated := false }) else []

/-- `LeaseSet::UpdateLeasesEnd`: if materializing, remove every lease still
marked not updated, first setting its end date to 0 (the zombie convention).
Returns (kept leases, removed zombie leases); the second component models the
objects a concurrent holder may still reference after erasure. -/
def UpdateLeasesEnd (storeLeases : Bool) (ls : List Lease) : List Lease × List Lease :=
  if storeLeases then
    (ls.filter (fun l => l.isUpdated),
     (ls.filter (fun l => !l.isUpdated)).map (fun l => { l with endDate := 0 }))
  else (ls, [])

/-- The upsert performed by `m_Leases.insert` + the `ret.second` fixup in
`LeaseSet::UpdateLease`: if a lease with the same (gateway, tunnelId) key is
present, overwrite only its end date and mark it updated; otherwise insert
the incoming lease, marked updated. -/
def upsertLease (j : RawLease) (ls : List Lease) : List Lease :=
  if ∃ x ∈ ls, x.key = j.key then
    ls.map (fun x => if x.key = j.key then { x with endDate := j.endDate, isUpdated := true } else x)
  else ls ++ [{ tunnelGateway := j.tunnelGateway, tunnelID := j.tunnelID,
                endDate := j.endDate, isUpdated := true }]

/-- `LeaseSet::UpdateLease` acting on (expiration candidate, lease set): an
incoming lease whose end date plus threshold is not in the future of ts is
discarded; otherwise it raises the expiration candidate and, when
materializing, is upserted into the set.  The netdb gateway lookup is a
fire-and-forget external side effect with no record state, so it does not
appear in the model. -/
def UpdateLease (storeLeases : Bool) (ts : Nat) (st : Nat × List Lease) (j : RawLease) :
    Nat × List Lease :=
  if ts < add64 j.endDate LEASE_ENDDATE_THRESHOLD then
    (if j.endDate > st.1 then j.endDate else st.1,
     if storeLeases then upsertLease j st.2 else st.2)
  else st

/-- The per-lease loop of the decoders: fold `UpdateLease` over the decoded
leases. -/
def processLeases (storeLeases : Bool) (ts : Nat) (js : List RawLease)
    (st : Nat × List Lease) : Nat × List Lease :=
  js.foldl (UpdateLease storeLeases ts) st

/-- Is the incoming lease still fresh at ts (the guard of UpdateLease)? -/
def liveAt (ts : Nat) (j : RawLease) : Bool :=
  decide (ts < add64 j.endDate LEASE_ENDDATE_THRESHOLD)

/-- Parse `n` legacy 44-byte leases starting at `off` (the decode loop of
`LeaseSet::ReadFromBuffer`). -/
def parseLeases (buf : List Nat) : Nat → Nat → List RawLease
  | _, 0 => []
  | off, n+1 =>
    { tunnelGateway := sliceBytes buf off 32, tunnelID := bufbe32toh buf (off + 32),
      endDate := bufbe64toh buf (off + 36) } :: parseLeases buf (off + 44) n

/-- Result of the legacy decode: the record state plus the flag telling
whether the C++ code would have read a byte at an index at or past the
supplied length on this path. -/
structure ReadResult where
  st : LSState
  oob : Bool
deriving DecidableEq, Repr

/-- `LeaseSet::ReadFromBuffer (readIdentity, verifySignature)`.  The identity
parsed from the buffer is supplied as the `ident` parameter (IdentityEx
construction is external to src/); `ts` is GetMillisecondsSinceEpoch.
Mirrors the source line by line: the identity length check is the only
bounds check; the 256-byte encryption-key memcpy, the signing-key skip, the
lease-count byte and the lease fields are read unconditionally, so the model
records out-of-bounds flags for each of those reads. -/
def ReadFromBuffer (ident : IdentityEx) (verifySignature : Bool) (buf : List Nat)
    (ts : Nat) (s : LSState) : ReadResult :=
  let len := buf.length
  if ident.fullLen > len then
    { st := { s with isValid := false }, oob := false }
  else
    let encKey := sliceBytes buf ident.fullLen 256
    let size := ident.fullLen + 256 + ident.signingPublicKeyLen
    let num := byteAt buf size
    let oob0 := decide (ident.fullLen + 256 > len) || decide (size ≥ len)
    if num = 0 ∨ num > MAX_NUM_LEASES then
      { st := { s with isValid := false, encryptionKey := encKey }, oob := oob0 }
    else
      let ls0 := UpdateLeasesBegin s.storeLeases s.leases
      let js := parseLeases buf (size + 1) num
      let pr := processLeases s.storeLeases ts js (0, ls0)
      let oob1 := oob0 || decide (size + 1 + num * LEASE_SIZE > len)
      if pr.1 = 0 then
        { st := { s with isValid := false, encryptionKey := encKey,
                         expirationTime := 0, leases := pr.2 },
          oob := oob1 }
      else
        let exp := add64 pr.1 LEASE_ENDDATE_THRESHOLD
        let ls2 := (UpdateLeasesEnd s.storeLeases pr.2).1
        let dataEnd := size + 1 + num * LEASE_SIZE
        if verifySignature then
          let oob2 := oob1 || decide (dataEnd + ident.signatureLen > len)
          if ident.verify (buf.take dataEnd) (sliceBytes buf dataEnd ident.signatureLen) then
            { st := { s with encryptionKey := encKey, expirationTime := exp, leases := ls2 },
              oob := oob2 }
          else
            { st := { s with isValid := false, encryptionKey := encKey,
                             expirationTime := exp, leases := ls2 },
              oob := oob2 }
        else
          { st := { s with encryptionKey := encKey, expirationTime := exp, leases := ls2 },
            oob := oob1 }

/-- Offset of the signature in a legacy buffer: everything up to the end of
the lease list is the signed span. -/
def legacyDataEnd (ident : IdentityEx) (buf : List Nat) : Nat :=
  let size := ident.fullLen + 256 + ident.signingPublicKeyLen
  size + 1 + byteAt buf size * LEASE_SIZE

/-- The inner loop of `LeaseSet::ExtractTimestamp`: walk `n` leases starting
at `off`, keeping the accumulator, where a zero accumulator is overwritten by
the next end date unconditionally (`if (!timestamp || endDate < timestamp)`). -/
def extractLoop (buf : List Nat) : Nat → Nat → Nat → Nat
  | _, 0, timestamp => timestamp
  | off, n+1, timestamp =>
    let endDate := bufbe64toh buf (off + 36)
    extractLoop buf (off + 44) n (if timestamp = 0 ∨ endDate < timestamp then endDate else timestamp)

/-- `LeaseSet::ExtractTimestamp` together with the out-of-bounds flag: the
value the C++ returns, and whether the lease-count byte read `buf[size]`
touched an index at or past the length (the code checks `size > len`, not
`size >= len`, before reading that byte). -/
def ExtractTimestampR (ident : Option IdentityEx) (buf : List Nat) : Nat × Bool :=
  match ident with
  | Option.none => (0, false)
  | Option.some ident =>
    let len := buf.length
    if ident.fullLen > len then (0, false)
    else
      let size := ident.fullLen + 256 + ident.signingPublicKeyLen
      if size > len then (0, false)
      else
        let num := byteAt buf size
        let oob := decide (size ≥ len)
        if size + 1 + num * LEASE_SIZE > len then (0, oob)
        else (extractLoop buf (size + 1) num 0, oob)

/-- The value `LeaseSet::ExtractTimestamp` returns. -/
def ExtractTimestamp (ident : Option IdentityEx) (buf : List Nat) : Nat :=
  (ExtractTimestampR ident buf).1

/-- `LeaseSet::IsNewer`: the candidate buffer is newer iff its extracted
timestamp strictly exceeds the one of the currently held buffer. -/
def IsNewer (ident : Option IdentityEx) (curBuf candBuf : List Nat) : Bool :=
  decide (ExtractTimestamp ident candBuf > ExtractTimestamp ident curBuf)

/-- `LeaseSet::ExpiresSoon (dlt, fudge)` at time `now`; `randv` models the
value of `rand ()` (only consulted when `fudge` is nonzero).  All quantities
are uint64. -/
def ExpiresSoon (expirationTime dlt fudge randv now : Nat) : Bool :=
  let now := if fudge ≠ 0 then add64 now (randv % fudge) else now
  if now ≥ expirationTime then true
  else decide (sub64 expirationTime now ≤ dlt)

/-- `LeaseSet::GetNonExpiredLeasesExcluding`: keep the held leases whose
threshold-adjusted end date (uint64 add or subtract, wrapping) lies after
`ts` and that the exclusion predicate does not match. -/
def GetNonExpiredLeasesExcluding (exclude : Lease → Bool) (withThreshold : Bool)
    (ts : Nat) (ls : List Lease) : List Lease :=
  ls.filter (fun l =>
    let endDate := if withThreshold then add64 l.endDate LEASE_ENDDATE_THRESHOLD
                   else sub64 l.endDate LEASE_ENDDATE_THRESHOLD
    decide (ts < endDate) && !exclude l)

/-- The max-end-date loop of `LeaseSetBufferValidate`. -/
def maxEndLoop (buf : List Nat) : Nat → Nat → Nat → Nat
  | _, 0, expires => expires
  | off, n+1, expires =>
    let endDate := bufbe64toh buf (off + 36)
    maxEndLoop buf (off + 44) n (if endDate > expires then endDate else expires)

/-- Result of the standalone validator: the returned flag, the `expires` out
parameter, and whether the C++ would have read at or past the length. -/
structure ValidateResult where
  ok : Bool
  expires : Nat
  oob : Bool
deriving DecidableEq, Repr

/-- `LeaseSetBufferValidate`: structural walk of a legacy buffer plus
signature check, without building a record.  Reads the lease-count byte and
the lease end dates with no bounds check after the identity length check, so
the model records the out-of-bounds flags of those reads. -/
def LeaseSetBufferValidate (ident : IdentityEx) (buf : List Nat) : ValidateResult :=
  let sz := buf.length
  if ident.fullLen > sz then { ok := false, expires := 0, oob := false }
  else
    let size := ident.fullLen + 256 + ident.signingPublicKeyLen
    let numLeases := byteAt buf size
    let oob0 := decide (size ≥ sz)
    if numLeases = 0 ∨ numLeases > MAX_NUM_LEASES then
      { ok := false, expires := 0, oob := oob0 }
    else
      let expires := maxEndLoop buf (size + 1) numLeases 0
      let dataEnd := size + 1 + numLeases * LEASE_SIZE
      let oob1 := oob0 || decide (dataEnd > sz) || decide (dataEnd + ident.signatureLen > sz)
      { ok := ident.verify (buf.take dataEnd) (sliceBytes buf dataEnd ident.signatureLen),
        expires := expires, oob := oob1 }

/-- Modelled from the spec: the netdb store-type tags distinguishing the v2
sub-formats (declared outside src/).  Only their distinctness matters. -/
def NETDB_STORE_TYPE_STANDARD_LEASESET2 : Nat := 3

/-- Modelled from the spec: store-type tag of the encrypted variant. -/
def NETDB_STORE_TYPE_ENCRYPTED_LEASESET2 : Nat := 5

/-- Modelled from the spec: store-type tag of the meta variant. -/
def NETDB_STORE_TYPE_META_LEASESET2 : Nat := 7

/-- The key-section loop of `ReadStandardLS2TypeSpecificPart`: for each
section read type and length (with the bounds checks of the source), and
keep the first encryption key created while materializing
(`if (!m_Encryptor && IsStoreLeases ())`).  `createEnc` models the external
`IdentityEx::CreateEncryptor` factory; `Option.none` from it models a null
encryptor.  Returns `Option.none` on a failed bounds check. -/
def ls2KeySections (store : Bool) (createEnc : Nat → List Nat → Option (Nat × List Nat))
    (buf : List Nat) : Nat → Nat → Option (Nat × List Nat) → Option (Nat × Option (Nat × List Nat))
  | offset, 0, enc => Option.some (offset, enc)
  | offset, n+1, enc =>
    let len := buf.length
    let keyType := bufbe16toh buf offset
    let offset := offset + 2
    if offset + 2 ≥ len then Option.none
    else
      let encryptionKeyLen := bufbe16toh buf offset
      let offset := offset + 2
      if offset + encryptionKeyLen ≥ len then Option.none
      else
        let enc := if enc = Option.none ∧ store
                   then createEnc keyType (sliceBytes buf offset encryptionKeyLen)
                   else enc
        ls2KeySections store createEnc buf (offset + encryptionKeyLen) n enc

/-- The lease loop of `ReadStandardLS2TypeSpecificPart`: each iteration
checks `offset + LEASE2_SIZE > len` and returns 0 on failure, keeping the
partially reconciled state (the C++ `return 0` does not roll back the member
set and does not run `UpdateLeasesEnd`).  First component `Option.none`
signals that failure. -/
def ls2LeaseLoop (buf : List Nat) (ts : Nat) :
    Nat → Nat → Nat × List Lease → Option Nat × (Nat × List Lease)
  | offset, 0, st => (Option.some offset, st)
  | offset, n+1, st =>
    if offset + LEASE2_SIZE > buf.length then (Option.none, st)
    else
      let j : RawLease :=
        { tunnelGateway := sliceBytes buf offset 32,
          tunnelID := bufbe32toh buf (offset + 32),
          endDate := bufbe32toh buf (offset + 36) * 1000 }
      ls2LeaseLoop buf ts (offset + 40) n (UpdateLease true ts st j)

/-- Result of a type-specific LS2 tail decode: bytes consumed (0 = failure),
the expiration candidate, the lease set and the retained encryptor. -/
structure LS2PartResult where
  consumed : Nat
  expirationTime : Nat
  leases : List Lease
  encryptor : Option (Nat × List Nat)
deriving DecidableEq, Repr

/-- `LeaseSet2::ReadStandardLS2TypeSpecificPart` on the tail sub-buffer:
skip properties, walk key sections, then run the lease list through the
reconciliation engine when materializing (or just skip it otherwise).
`exp0` is the member `m_ExpirationTime` as set from the header, which the
per-lease `UpdateLease` calls may raise. -/
def ReadStandardLS2TypeSpecificPart (store : Bool)
    (createEnc : Nat → List Nat → Option (Nat × List Nat)) (ts : Nat)
    (buf : List Nat) (ls0 : List Lease) (exp0 : Nat) : LS2PartResult :=
  let len := buf.length
  let propertiesLen := bufbe16toh buf 0
  let offset := 2 + propertiesLen
  if offset + 1 ≥ len then
    { consumed := 0, expirationTime := exp0, leases := ls0, encryptor := Option.none }
  else
    let numKeySections := byteAt buf offset
    match ls2KeySections store createEnc buf (offset + 1) numKeySections Option.none with
    | Option.none =>
      { consumed := 0, expirationTime := exp0, leases := ls0, encryptor := Option.none }
    | Option.some (offset, enc) =>
      if offset + 1 ≥ len then
        { consumed := 0, expirationTime := exp0, leases := ls0, encryptor := enc }
      else
        let numLeases := byteAt buf offset
        let offset := offset + 1
        if store then
          let st0 := (exp0, UpdateLeasesBegin true ls0)
          match ls2LeaseLoop buf ts offset numLeases st0 with
          | (Option.none, st) =>
            { consumed := 0, expirationTime := st.1, leases := st.2, encryptor := enc }
          | (Option.some offset, st) =>
            { consumed := offset, expirationTime := st.1,
              leases := (UpdateLeasesEnd true st.2).1, encryptor := enc }
        else
          { consumed := offset + numLeases * LEASE2_SIZE, expirationTime := exp0,
            leases := ls0, encryptor := Option.none }

/-- Fixed-stride skip loop of `ReadMetaLS2TypeSpecificPart`; `strict` selects
between the `>=` check of the entries loop and the `>` check of the
revocations loop. -/
def metaSkipLoop (len step : Nat) (strict : Bool) : Nat → Nat → Option Nat
  | offset, 0 => Option.some offset
  | offset, n+1 =>
    if (if strict then offset + step > len else offset + step ≥ len) then Option.none
    else metaSkipLoop len step strict (offset + step) n

/-- `LeaseSet2::ReadMetaLS2TypeSpecificPart`: skip properties, entries and
revocation hashes, never touching the lease set; returns consumed bytes, 0
on failure. -/
def ReadMetaLS2TypeSpecificPart (buf : List Nat) : Nat :=
  let len := buf.length
  let propertiesLen := bufbe16toh buf 0
  let offset := 2 + propertiesLen
  if offset + 1 ≥ len then 0
  else
    let numEntries := byteAt buf offset
    match metaSkipLoop len 40 false (offset + 1) numEntries with
    | Option.none => 0
    | Option.some offset =>
      if offset + 1 ≥ len then 0
      else
        let numRevocations := byteAt buf offset
        match metaSkipLoop len 32 true (offset + 1) numRevocations with
        | Option.none => 0
        | Option.some offset => offset

/-- The offline-key block of the LS2 header (flags bit 0): delegate key type,
key bytes and a signature by the primary identity over
(expires ‖ key type ‖ key bytes); any failed check or failed verification
aborts the decode.  Returns the offset after the block and the delegate
verifier with its key bytes. -/
def ls2OfflineKey (ident : IdentityEx) (createVerifier : Nat → Option Verifier)
    (buf : List Nat) (offset : Nat) : Option (Nat × Verifier × List Nat) :=
  let len := buf.length
  if offset + 6 ≥ len then Option.none
  else
    let signedDataStart := offset
    let keyType := bufbe16toh buf (offset + 4)
    let offset := offset + 6
    match createVerifier keyType with
    | Option.none => Option.none
    | Option.some v =>
      let keyLen := v.publicKeyLen
      if offset + keyLen ≥ len then Option.none
      else
        let key := sliceBytes buf offset keyLen
        let offset := offset + keyLen
        if offset + ident.signatureLen ≥ len then Option.none
        else if ident.verify (sliceBytes buf signedDataStart (keyLen + 6))
                             (sliceBytes buf offset ident.signatureLen) then
          Option.some (offset + ident.signatureLen, v, key)
        else Option.none

/-- Observable state of a LeaseSet2 record after decode. -/
structure LS2Result where
  isValid : Bool
  expirationTime : Nat
  leases : List Lease
  encryptor : Option (Nat × List Nat)
deriving DecidableEq, Repr

/-- `LeaseSet2::VerifySignature` for the identity path: the signed scope is
one synthetic leading byte holding the store type followed by the buffer up
to the signature offset (the C++ temporarily overwrites `buf[-1]`). -/
def ls2VerifyWithIdentity (storeType : Nat) (ident : IdentityEx) (buf : List Nat)
    (signatureOffset : Nat) : Bool :=
  if signatureOffset + ident.signatureLen > buf.length then false
  else ident.verify (storeType :: buf.take signatureOffset)
                    (sliceBytes buf signatureOffset ident.signatureLen)

/-- `LeaseSet2::VerifySignature` for the offline/blinded verifier path. -/
def ls2VerifyWithVerifier (storeType : Nat) (v : Verifier) (key : List Nat)
    (buf : List Nat) (signatureOffset : Nat) : Bool :=
  if signatureOffset + v.signatureLen > buf.length then false
  else v.verify key (storeType :: buf.take signatureOffset)
                    (sliceBytes buf signatureOffset v.signatureLen)

/-- `LeaseSet2::ReadFromBuffer` (the non-encrypted v2 path): standard LS2
header (published timestamp + relative expiry combine into the aggregate
expiration, uint32 seconds arithmetic then millisecond scaling), optional
offline key, type-specific tail, then signature verification over the
store-type-prefixed span.  The record starts from the fresh constructor
state (`m_IsValid = false`, empty lease set); every early return leaves the
state accumulated so far with `isValid = false`. -/
def LS2ReadFromBuffer (storeType : Nat) (ident : IdentityEx)
    (createVerifier : Nat → Option Verifier)
    (createEnc : Nat → List Nat → Option (Nat × List Nat))
    (store : Bool) (ts : Nat) (buf : List Nat) : LS2Result :=
  let len := buf.length
  let offset := ident.fullLen
  if offset + 8 ≥ len then
    { isValid := false, expirationTime := 0, leases := [], encryptor := Option.none }
  else
    let timestamp := bufbe32toh buf offset
    let expires := bufbe16toh buf (offset + 4)
    let expirationTime := ((timestamp + expires) % 2^32) * 1000
    let flags := bufbe16toh buf (offset + 6)
    let offset := offset + 8
    let afterOffline : Option (Nat × Option (Verifier × List Nat)) :=
      if flags % 2 = 1 then
        match ls2OfflineKey ident createVerifier buf offset with
        | Option.none => Option.none
        | Option.some (o, v, k) => Option.some (o, Option.some (v, k))
      else Option.some (offset, Option.none)
    match afterOffline with
    | Option.none =>
      { isValid := false, expirationTime := expirationTime, leases := [],
        encryptor := Option.none }
    | Option.some (offset, offlineVK) =>
      let part :=
        if storeType = NETDB_STORE_TYPE_STANDARD_LEASESET2 then
          ReadStandardLS2TypeSpecificPart store createEnc ts (buf.drop offset) [] expirationTime
        else if storeType = NETDB_STORE_TYPE_META_LEASESET2 then
          { consumed := ReadMetaLS2TypeSpecificPart (buf.drop offset),
            expirationTime := expirationTime, leases := [], encryptor := Option.none }
        else
          { consumed := 0, expirationTime := expirationTime, leases := [],
            encryptor := Option.none }
      if part.consumed = 0 then
        { isValid := false, expirationTime := part.expirationTime,
          leases := part.leases, encryptor := part.encryptor }
      else
        let offset := offset + part.consumed
        let verified :=
          match offlineVK with
          | Option.some (v, k) => ls2VerifyWithVerifier storeType v k buf offset
          | Option.none => ls2VerifyWithIdentity storeType ident buf offset
        { isValid := verified, expirationTime := part.expirationTime,
          leases := part.leases, encryptor := part.encryptor }

/-- Big-endian 16-bit serialization (`htobe16buf`, value taken mod 2^16). -/
def be16 (n : Nat) : List Nat := [n / 2^8 % 2^8, n % 2^8]

/-- Big-endian 32-bit serialization (`htobe32buf`, value taken mod 2^32). -/
def be32 (n : Nat) : List Nat := [n / 2^24 % 2^8, n / 2^16 % 2^8, n / 2^8 % 2^8, n % 2^8]

/-- Big-endian 64-bit serialization (`htobe64buf`, value taken mod 2^64). -/
def be64 (n : Nat) : List Nat :=
  [n / 2^56 % 2^8, n / 2^48 % 2^8, n / 2^40 % 2^8, n / 2^32 % 2^8,
   n / 2^24 % 2^8, n / 2^16 % 2^8, n / 2^8 % 2^8, n % 2^8]

/-- A run of `n` zero bytes. -/
def zeros (n : Nat) : List Nat := List.replicate n 0

/-- Modelled from the spec: tunnel lifetime in seconds (Tunnel.h is not under
src/); value immaterial to the theorems. -/
def TUNNEL_EXPIRATION_TIMEOUT : Nat := 660

/-- Modelled from the spec: the safety margin subtracted from the tunnel
lifetime (Tunnel.h is not under src/); value immaterial to the theorems. -/
def TUNNEL_EXPIRATION_THRESHOLD : Nat := 60

/-- The external inbound-tunnel collaborator, modelled from the spec: next
hop identity hash (32 bytes), next tunnel id, creation time in seconds. -/
structure TunnelInfo where
  nextIdentHash : List Nat
  nextTunnelID : Nat
  creationTime : Nat
deriving DecidableEq, Repr

/-- Per-tunnel lease end date in seconds, as computed by the LocalLeaseSet2
constructor: creation time + lifetime - margin, in uint32 arithmetic. -/
def tunnelEndDateSec (t : TunnelInfo) : Nat :=
  (t.creationTime + TUNNEL_EXPIRATION_TIMEOUT - TUNNEL_EXPIRATION_THRESHOLD) % 2^32

/-- A locally built record: the constructed buffer (with its leading
store-type guard byte for v2) and the aggregate expiration. -/
structure LocalLS2 where
  buffer : List Nat
  bufferLen : Nat
  expirationTime : Nat
deriving DecidableEq, Repr

/-- `LocalLeaseSet2::LocalLeaseSet2` (standard v2 local construction):
serialize store-type guard byte, identity, published timestamp, the 2-byte
relative expiry (computed at the end and written back), zero flags and
properties, exactly one key section, then one 40-byte lease per tunnel
(capped at the maximum).  The relative expiry is computed in C++ as
`expirationTime - timestamp` on unsigned values, guarded by
`expires > 0 ? expires : 0`, then truncated to 16 bits by `htobe16buf`;
`identBytes` models ToBuffer of the identity, and the unsigned signature
region is modelled as zero bytes. -/
def LocalLeaseSet2 (storeType : Nat) (identBytes : List Nat) (signatureLen : Nat)
    (keyType keyLen : Nat) (encryptionPublicKey : List Nat)
    (tunnels : List TunnelInfo) (timestamp : Nat) : LocalLS2 :=
  let num := min tunnels.length MAX_NUM_LEASES
  let included := tunnels.take num
  let bufferLen := identBytes.length + 4 + 2 + 2 + 2 + 1 + 2 + 2 + keyLen + 1 +
                   num * LEASE2_SIZE + signatureLen
  let expirationTime := included.foldl
    (fun e t => if tunnelEndDateSec t > e then tunnelEndDateSec t else e) 0
  let expires := (expirationTime % 2^64 + 2^64 - timestamp % 2^64) % 2^64
  let expiresField := if expires > 0 then expires else 0
  let leaseBytes := (included.map (fun t =>
    t.nextIdentHash ++ be32 t.nextTunnelID ++ be32 (tunnelEndDateSec t))).flatten
  { buffer := storeType % 2^8 :: identBytes ++ be32 timestamp ++ be16 expiresField ++
              be16 0 ++ be16 0 ++ [1] ++ be16 keyType ++ be16 keyLen ++
              encryptionPublicKey ++ [num] ++ leaseBytes ++ zeros signatureLen,
    bufferLen := bufferLen,
    expirationTime := expirationTime * 1000 }

/-- The pure upsert fold underlying the reconciliation loop (what
`processLeases` does to the set component for the leases that pass the
freshness guard). -/
def foldUpserts (js : List RawLease) (ls : List Lease) : List Lease :=
  js.foldl (fun acc j => upsertLease j acc) ls

/-- Last end date an upsert sequence writes for key `k` (later list elements
take precedence). -/
def lastVal (k : List Nat × Nat) : List RawLease → Option Nat
  | [] => Option.none
  | j :: js =>
    match lastVal k js with
    | Option.some e => Option.some e
    | Option.none => if j.key = k then Option.some j.endDate else Option.none

/-- Effect of a whole upsert sequence on one already-present lease: if its
key occurs in the sequence the end date becomes the last written value and
the lease is marked updated, otherwise it is untouched. -/
def touchLease (js : List RawLease) (l : Lease) : Lease :=
  match lastVal l.key js with
  | Option.some e => { l with endDate := e, isUpdated := true }
  | Option.none => l

/-- The leases an upsert sequence appends when run against a set holding the
keys `ks`: one lease per first occurrence of a key not in `ks`, carrying the
last end date written for that key, marked updated. -/
def newLeases (js : List RawLease) (ks : List (List Nat × Nat)) : List Lease :=
  match js with
  | [] => []
  | j :: js =>
    if j.key ∈ ks then newLeases js ks
    else { tunnelGateway := j.tunnelGateway, tunnelID := j.tunnelID,
           endDate := (lastVal j.key js).getD j.endDate, isUpdated := true }
         :: newLeases js (j.key :: ks)

/-- End dates of `n` consecutive legacy wire leases starting at `off` (each
lease is 36 bytes of gateway + tunnel id followed by the 8-byte end date). -/
def endDatesFrom (buf : List Nat) : Nat → Nat → List Nat
  | _, 0 => []
  | off, n+1 => bufbe64toh buf (off + 36) :: endDatesFrom buf (off + 44) n

/-- The end dates of the leases a legacy buffer declares (at the offsets
`ExtractTimestamp` walks). -/
def legacyLeaseEndDates (ident : IdentityEx) (buf : List Nat) : List Nat :=
  let size := ident.fullLen + 256 + ident.signingPublicKeyLen
  endDatesFrom buf (size + 1) (byteAt buf size)

/-- Minimum of a list of end dates, 0 for the empty list: the value the spec
says `ExtractTimestamp` computes. -/
def minD (ds : List Nat) : Nat :=
  match ds with
  | [] => 0
  | x :: xs => xs.foldl min x

/-- The accumulator recurrence of `extractLoop`, over the abstract date
list. -/
def dateFold (ds : List Nat) (t : Nat) : Nat :=
  ds.foldl (fun t e => if t = 0 ∨ e < t then e else t) t

/-- All bounds checks of `ExtractTimestamp` pass for this buffer. -/
def extractBoundsOk (ident : IdentityEx) (buf : List Nat) : Prop :=
  ident.fullLen + 256 + ident.signingPublicKeyLen + 1 +
    byteAt buf (ident.fullLen + 256 + ident.signingPublicKeyLen) * LEASE_SIZE ≤ buf.length

/-- A realistically sized identity (387-byte standard identity, 128-byte
signing key field, 40-byte signature) whose external verification always
succeeds. -/
def identStd : IdentityEx :=
  { fullLen := 387, signingPublicKeyLen := 128, signatureLen := 40,
    verify := fun _ _ => true }

/-- Same dimensions, but verification always fails. -/
def identStdFail : IdentityEx :=
  { fullLen := 387, signingPublicKeyLen := 128, signatureLen := 40,
    verify := fun _ _ => false }

/-- A minimally sized identity used by witness instantiations. -/
def identW : IdentityEx :=
  { fullLen := 1, signingPublicKeyLen := 0, signatureLen := 0,
    verify := fun _ _ => true }

/-- Minimally sized identity whose verification always fails. -/
def identWFail : IdentityEx :=
  { fullLen := 1, signingPublicKeyLen := 0, signatureLen := 0,
    verify := fun _ _ => false }

/-- A valid one-lease legacy buffer under `identStd`: identity bytes,
256-byte encryption key, 128-byte unused signing key, lease count 1, one
lease (zero gateway, tunnel id 1, end date 1000000 ms), 40-byte signature. -/
def legacyBufC1 : List Nat :=
  zeros 387 ++ zeros 256 ++ zeros 128 ++ [1] ++
  (zeros 32 ++ be32 1 ++ be64 1000000) ++ zeros 40

/-- A v2 standard buffer under `identStd` declaring zero leases: header
(published 100 s, expires 10 s, flags 0), empty properties, one key section
(type 7, 4 key bytes), lease count 0, 40-byte signature. -/
def ls2BufC2 : List Nat :=
  zeros 387 ++ be32 100 ++ be16 10 ++ be16 0 ++
  be16 0 ++ [1] ++ be16 7 ++ be16 4 ++ zeros 4 ++ [0] ++ zeros 40

/-- A legacy buffer under `identStd` with two leases whose end dates are 0
and 5. -/
def legacyBufC6 : List Nat :=
  zeros 387 ++ zeros 256 ++ zeros 128 ++ [2] ++
  (zeros 36 ++ be64 0) ++ (zeros 36 ++ be64 5) ++ zeros 40

/-- Candidate buffer for the C6 witness: two leases expiring at 100 and 900
(minimal identity). -/
def candBufC6 : List Nat :=
  [0] ++ zeros 256 ++ [2] ++ (zeros 36 ++ be64 100) ++ (zeros 36 ++ be64 900)

/-- Current buffer for the C6 witness: two leases expiring at 200 and 300. -/
def curBufC6 : List Nat :=
  [0] ++ zeros 256 ++ [2] ++ (zeros 36 ++ be64 200) ++ (zeros 36 ++ be64 300)

/-- Structurally valid one-lease legacy buffer under the minimal identity
(signature length 0, so the signature region is empty). -/
def legacyBufC3 : List Nat :=
  [0] ++ zeros 256 ++ [1] ++ (zeros 32 ++ be32 7 ++ be64 1000000)


/-- The lease-count byte of a legacy buffer. -/
def legacyNum (ident : IdentityEx) (buf : List Nat) : Nat :=
  byteAt buf (ident.fullLen + 256 + ident.signingPublicKeyLen)

/-- The wire leases a legacy buffer declares. -/
def legacyJs (ident : IdentityEx) (buf : List Nat) : List RawLease :=
  parseLeases buf (ident.fullLen + 256 + ident.signingPublicKeyLen + 1) (legacyNum ident buf)

/-- The expiration-candidate fold of the reconciliation loop. -/
def expFold (js : List RawLease) (e : Nat) : Nat :=
  js.foldl (fun a j => if j.endDate > a then j.endDate else a) e

/-- Mark every lease as not updated (the materializing branch of
`UpdateLeasesBegin`). -/
def markAll (ls : List Lease) : List Lease := ls.map fun l => { l with isUpdated := false }

/-- Keep the updated leases (the kept component of `UpdateLeasesEnd`). -/
def keepUpdated (ls : List Lease) : List Lease := ls.filter fun l => l.isUpdated


/-- Candidate buffer for the C10 witness: its declared lease count (5) does
not fit in the 300-byte buffer. -/
def candBufC10 : List Nat := zeros 257 ++ [5] ++ zeros 42

/-- A minimal legacy buffer whose lease-count byte is zero. -/
def legacyBufC2w : List Nat := [0] ++ zeros 256 ++ [0]


theorem lastVal_cons (k : List Nat × Nat) (j : RawLease) (js : List RawLease) :
    lastVal k (j :: js) =
      match lastVal k js with
      | Option.some e => Option.some e
      | Option.none => if j.key = k then Option.some j.endDate else Option.none := rfl

theorem lastVal_cons_ne {j : RawLease} {k : List Nat × Nat} (h : j.key ≠ k)
    (js : List RawLease) : lastVal k (j :: js) = lastVal k js := by
  rw [lastVal_cons]
  cases h' : lastVal k js with
  | none => simp [h]
  | some e => rfl

theorem touchLease_nil (l : Lease) : touchLease [] l = l := rfl

theorem touchLease_key (js : List RawLease) (l : Lease) :
    (touchLease js l).key = l.key := by
  unfold touchLease
  cases lastVal l.key js <;> rfl

theorem newLeases_congr (js : List RawLease) :
    ∀ ks ks' : List (List Nat × Nat), (∀ k, k ∈ ks ↔ k ∈ ks') →
      newLeases js ks = newLeases js ks' := by
  induction js with
  | nil => intro ks ks' _; rfl
  | cons j js ih =>
    intro ks ks' h
    unfold newLeases
    by_cases hj : j.key ∈ ks
    · rw [if_pos hj, if_pos ((h j.key).mp hj), ih ks ks' h]
    · rw [if_neg hj, if_neg (fun hc => hj ((h j.key).mpr hc))]
      have h' : ∀ k, k ∈ j.key :: ks ↔ k ∈ j.key :: ks' := by
        intro k
        simp only [List.mem_cons]
        exact or_congr Iff.rfl (h k)
      rw [ih (j.key :: ks) (j.key :: ks') h']

theorem touch_step_eq (j : RawLease) (js : List RawLease) (x : Lease)
    (h : x.key = j.key) :
    touchLease js { x with endDate := j.endDate, isUpdated := true } =
      touchLease (j :: js) x := by
  unfold touchLease
  rw [lastVal_cons]
  have hkey : Lease.key { x with endDate := j.endDate, isUpdated := true } = j.key := by
    rw [← h]; rfl
  rw [hkey, h]
  cases h' : lastVal j.key js with
  | none => simp
  | some e => rfl

theorem touch_skip_eq (j : RawLease) (js : List RawLease) (x : Lease)
    (h : x.key ≠ j.key) :
    touchLease js x = touchLease (j :: js) x := by
  unfold touchLease
  rw [lastVal_cons_ne (fun hc => h hc.symm) js]

theorem foldUpserts_cons (j : RawLease) (js : List RawLease) (ls : List Lease) :
    foldUpserts (j :: js) ls = foldUpserts js (upsertLease j ls) := rfl

theorem newLeases_cons (j : RawLease) (js : List RawLease)
    (ks : List (List Nat × Nat)) :
    newLeases (j :: js) ks =
      if j.key ∈ ks then newLeases js ks
      else { tunnelGateway := j.tunnelGateway, tunnelID := j.tunnelID,
             endDate := (lastVal j.key js).getD j.endDate, isUpdated := true }
           :: newLeases js (j.key :: ks) := rfl

theorem foldUpserts_char (js : List RawLease) :
    ∀ ls : List Lease,
      foldUpserts js ls = ls.map (touchLease js) ++ newLeases js (ls.map Lease.key) := by
  induction js with
  | nil =>
    intro ls
    have h1 : ls.map (touchLease []) = ls := by
      rw [List.map_congr_left (fun x _ => touchLease_nil x)]
      exact List.map_id' ls
    show ls = ls.map (touchLease []) ++ newLeases [] (ls.map Lease.key)
    rw [h1, show newLeases [] (ls.map Lease.key) = ([] : List Lease) from rfl,
      List.append_nil]
  | cons j js ih =>
    intro ls
    rw [foldUpserts_cons]
    by_cases hk : ∃ x ∈ ls, x.key = j.key
    · unfold upsertLease
      rw [if_pos hk, ih]
      have hmem : j.key ∈ ls.map Lease.key := by
        obtain ⟨x, hx, he⟩ := hk
        exact List.mem_map.mpr ⟨x, hx, he⟩
      have hkeys : ((ls.map fun x =>
          if x.key = j.key then { x with endDate := j.endDate, isUpdated := true } else x).map
            Lease.key) = ls.map Lease.key := by
        rw [List.map_map]
        refine List.map_congr_left ?_
        intro x _
        simp only [Function.comp_apply]
        by_cases hx : x.key = j.key
        · rw [if_pos hx]; rfl
        · rw [if_neg hx]
      have htouch : ((ls.map fun x =>
          if x.key = j.key then { x with endDate := j.endDate, isUpdated := true } else x).map
            (touchLease js)) = ls.map (touchLease (j :: js)) := by
        rw [List.map_map]
        refine List.map_congr_left ?_
        intro x _
        simp only [Function.comp_apply]
        by_cases hx : x.key = j.key
        · rw [if_pos hx]; exact touch_step_eq j js x hx
        · rw [if_neg hx]; exact touch_skip_eq j js x hx
      rw [hkeys, htouch, newLeases_cons, if_pos hmem]
    · unfold upsertLease
      rw [if_neg hk, ih]
      have hnotmem : j.key ∉ ls.map Lease.key := by
        intro hc
        obtain ⟨x, hx, he⟩ := List.mem_map.mp hc
        exact hk ⟨x, hx, he⟩
      have htouch2 : ls.map (touchLease js) = ls.map (touchLease (j :: js)) :=
        List.map_congr_left (fun x hx => touch_skip_eq j js x (fun hc => hk ⟨x, hx, hc⟩))
      have hkeynj : Lease.key
          { tunnelGateway := j.tunnelGateway, tunnelID := j.tunnelID,
            endDate := j.endDate, isUpdated := true } = j.key := rfl
      have hhead : touchLease js
          { tunnelGateway := j.tunnelGateway, tunnelID := j.tunnelID,
            endDate := j.endDate, isUpdated := true } =
          { tunnelGateway := j.tunnelGateway, tunnelID := j.tunnelID,
            endDate := (lastVal j.key js).getD j.endDate, isUpdated := true } := by
        unfold touchLease
        rw [hkeynj]
        cases h' : lastVal j.key js with
        | none => simp
        | some e => simp
      have hnew : newLeases js (ls.map Lease.key ++ [j.key]) =
          newLeases js (j.key :: ls.map Lease.key) := by
        refine newLeases_congr js _ _ ?_
        intro k
        simp only [List.mem_append, List.mem_cons, List.not_mem_nil, or_false]
        exact or_comm
      rw [List.map_append, List.map_append, List.map_cons, List.map_nil, List.map_cons,
        List.map_nil, hkeynj, htouch2, hhead, hnew, newLeases_cons, if_neg hnotmem,
        List.append_assoc, List.singleton_append]

theorem lastVal_isSome_of_mem (j : RawLease) :
    ∀ js : List RawLease, j ∈ js → (lastVal j.key js).isSome = true := by
  intro js
  induction js with
  | nil => intro h; exact absurd h (List.not_mem_nil j)
  | cons j' js ih =>
    intro h
    rw [lastVal_cons]
    rcases List.mem_cons.mp h with h1 | h2
    · subst h1
      cases h' : lastVal j.key js with
      | none => rw [if_pos rfl]; rfl
      | some e => rfl
    · have := ih h2
      cases h' : lastVal j.key js with
      | none => rw [h'] at this; exact absurd this (by simp)
      | some e => rfl

theorem newLeases_mem_spec :
    ∀ (js : List RawLease) (ks : List (List Nat × Nat)) (x : Lease),
      x ∈ newLeases js ks →
      x.isUpdated = true ∧ lastVal x.key js = Option.some x.endDate ∧ x.key ∉ ks := by
  intro js
  induction js with
  | nil => intro ks x h; exact absurd h (List.not_mem_nil x)
  | cons j js ih =>
    intro ks x h
    rw [newLeases_cons] at h
    by_cases hj : j.key ∈ ks
    · rw [if_pos hj] at h
      obtain ⟨hu, hl, hnk⟩ := ih ks x h
      refine ⟨hu, ?_, hnk⟩
      rw [lastVal_cons, hl]
    · rw [if_neg hj] at h
      rcases List.mem_cons.mp h with h1 | h2
      · subst h1
        refine ⟨rfl, ?_, hj⟩
        show lastVal j.key (j :: js) = Option.some ((lastVal j.key js).getD j.endDate)
        rw [lastVal_cons]
        cases h' : lastVal j.key js with
        | none => rw [if_pos rfl]; rfl
        | some e => rfl
      · obtain ⟨hu, hl, hnk⟩ := ih (j.key :: ks) x h2
        have hne : x.key ≠ j.key := fun hc => hnk (hc ▸ List.mem_cons_self j.key ks)
        refine ⟨hu, ?_, fun hc => hnk (List.mem_cons_of_mem _ hc)⟩
        rw [lastVal_cons_ne (fun hc => hne hc.symm), hl]

theorem newLeases_eq_nil :
    ∀ (js : List RawLease) (ks : List (List Nat × Nat)),
      (∀ j ∈ js, RawLease.key j ∈ ks) → newLeases js ks = [] := by
  intro js
  induction js with
  | nil => intro ks _; rfl
  | cons j js ih =>
    intro ks h
    rw [newLeases_cons, if_pos (h j (List.mem_cons_self j js))]
    exact ih ks (fun j' hj' => h j' (List.mem_cons_of_mem j hj'))

theorem newLeases_key_mem :
    ∀ (js : List RawLease) (ks : List (List Nat × Nat)) (j : RawLease), j ∈ js →
      j.key ∈ ks ∨ ∃ x ∈ newLeases js ks, Lease.key x = j.key := by
  intro js
  induction js with
  | nil => intro ks j h; exact absurd h (List.not_mem_nil j)
  | cons j' js ih =>
    intro ks j h
    rw [newLeases_cons]
    by_cases hj' : j'.key ∈ ks
    · rw [if_pos hj']
      rcases List.mem_cons.mp h with h1 | h2
      · subst h1; exact Or.inl hj'
      · exact ih ks j h2
    · rw [if_neg hj']
      rcases List.mem_cons.mp h with h1 | h2
      · subst h1
        exact Or.inr ⟨_, List.mem_cons_self _ _, rfl⟩
      · rcases ih (j'.key :: ks) j h2 with h3 | ⟨x, hx, he⟩
        · rcases List.mem_cons.mp h3 with h4 | h5
          · exact Or.inr ⟨_, List.mem_cons_self _ _, h4.symm⟩
          · exact Or.inl h5
        · exact Or.inr ⟨x, List.mem_cons_of_mem _ hx, he⟩

theorem foldUpserts_fix (js : List RawLease) (M : List Lease)
    (h1 : ∀ x ∈ M, (lastVal x.key js = Option.some x.endDate ∧ x.isUpdated = true) ∨
                   (lastVal x.key js = Option.none ∧ x.isUpdated = false))
    (h2 : ∀ j ∈ js, RawLease.key j ∈ M.map Lease.key) :
    foldUpserts js (M.map fun l => { l with isUpdated := false }) = M := by
  rw [foldUpserts_char]
  have hkeys : ((M.map fun l => { l with isUpdated := false }).map Lease.key) =
      M.map Lease.key := by
    rw [List.map_map]
    exact List.map_congr_left (fun x _ => rfl)
  rw [hkeys, newLeases_eq_nil js _ h2, List.append_nil, List.map_map]
  have hpt : ∀ x ∈ M, (touchLease js ∘ fun l => { l with isUpdated := false }) x = x := by
    intro x hx
    simp only [Function.comp_apply]
    rcases h1 x hx with ⟨hl, hu⟩ | ⟨hl, hu⟩
    · cases x with
      | mk g t e u =>
        simp only [Lease.key] at hl
        simp only at hu
        subst hu
        unfold touchLease
        simp only [Lease.key]
        rw [hl]
    · cases x with
      | mk g t e u =>
        simp only [Lease.key] at hl
        simp only at hu
        subst hu
        unfold touchLease
        simp only [Lease.key]
        rw [hl]
  rw [List.map_congr_left hpt]
  exact List.map_id' M

theorem foldUpserts_mark_mem (js : List RawLease) (ls : List Lease) (x : Lease)
    (hx : x ∈ foldUpserts js (markAll ls)) :
    (lastVal x.key js = Option.some x.endDate ∧ x.isUpdated = true) ∨
    (lastVal x.key js = Option.none ∧ x.isUpdated = false) := by
  rw [markAll, foldUpserts_char] at hx
  rcases List.mem_append.mp hx with hA | hB
  · obtain ⟨z, hz, rfl⟩ := List.mem_map.mp hA
    obtain ⟨y, _, rfl⟩ := List.mem_map.mp hz
    cases y with
    | mk g t e u =>
      unfold touchLease
      simp only [Lease.key]
      cases h' : lastVal (g, t) js with
      | none =>
        refine Or.inr ⟨?_, rfl⟩
        show lastVal (g, t) js = Option.none
        exact h'
      | some e' =>
        refine Or.inl ⟨?_, rfl⟩
        show lastVal (g, t) js = Option.some e'
        exact h' 
  · obtain ⟨hu, hl, _⟩ := newLeases_mem_spec js _ x hB
    exact Or.inl ⟨hl, hu⟩

theorem foldUpserts_mark_keys (js : List RawLease) (ls : List Lease) (j : RawLease)
    (hj : j ∈ js) :
    j.key ∈ (foldUpserts js (markAll ls)).map Lease.key := by
  rw [markAll, foldUpserts_char]
  rcases newLeases_key_mem js
      ((ls.map fun l => { l with isUpdated := false }).map Lease.key) j hj with h | ⟨x, hx, he⟩
  · rw [List.map_append]
    refine List.mem_append.mpr (Or.inl ?_)
    obtain ⟨z, hz, he⟩ := List.mem_map.mp h
    rw [List.map_map]
    refine List.mem_map.mpr ⟨z, hz, ?_⟩
    simp only [Function.comp_apply]
    rw [touchLease_key]
    exact he
  · rw [List.map_append]
    exact List.mem_append.mpr (Or.inr (List.mem_map.mpr ⟨x, hx, he⟩))

theorem foldUpserts_mark_idem (js : List RawLease) (ls : List Lease) :
    foldUpserts js (markAll (foldUpserts js (markAll ls))) = foldUpserts js (markAll ls) :=
  foldUpserts_fix js _ (fun x hx => foldUpserts_mark_mem js ls x hx)
    (fun j hj => foldUpserts_mark_keys js ls j hj)

theorem foldUpserts_keep_idem (js : List RawLease) (ls : List Lease) :
    keepUpdated (foldUpserts js (markAll (keepUpdated (foldUpserts js (markAll ls))))) =
      keepUpdated (foldUpserts js (markAll ls)) := by
  have hmemK : ∀ x ∈ keepUpdated (foldUpserts js (markAll ls)),
      x ∈ foldUpserts js (markAll ls) ∧ x.isUpdated = true := by
    intro x hx
    have h := List.mem_filter.mp hx
    exact ⟨h.1, h.2⟩
  have h1 : ∀ x ∈ keepUpdated (foldUpserts js (markAll ls)),
      (lastVal x.key js = Option.some x.endDate ∧ x.isUpdated = true) ∨
      (lastVal x.key js = Option.none ∧ x.isUpdated = false) := by
    intro x hx
    rcases foldUpserts_mark_mem js ls x (hmemK x hx).1 with h | h
    · exact Or.inl h
    · exact absurd (hmemK x hx).2 (by simp [h.2])
  have h2 : ∀ j ∈ js, RawLease.key j ∈ (keepUpdated (foldUpserts js (markAll ls))).map Lease.key := by
    intro j hj
    obtain ⟨x, hx, he⟩ := List.mem_map.mp (foldUpserts_mark_keys js ls j hj)
    rcases foldUpserts_mark_mem js ls x hx with h | h
    · exact List.mem_map.mpr ⟨x, List.mem_filter.mpr ⟨hx, h.2⟩, he⟩
    · exfalso
      have hsome := lastVal_isSome_of_mem j js hj
      rw [← he, h.1] at hsome
      simp at hsome
  have hfix := foldUpserts_fix js (keepUpdated (foldUpserts js (markAll ls))) h1 h2
  rw [show markAll (keepUpdated (foldUpserts js (markAll ls))) =
      (keepUpdated (foldUpserts js (markAll ls))).map (fun l => { l with isUpdated := false })
    from rfl]
  rw [hfix]
  refine List.filter_eq_self.mpr ?_
  intro x hx
  exact (hmemK x hx).2

theorem processLeases_cons (store : Bool) (ts : Nat) (j : RawLease) (js : List RawLease)
    (st : Nat × List Lease) :
    processLeases store ts (j :: js) st = processLeases store ts js (UpdateLease store ts st j) := by
  unfold processLeases
  rw [List.foldl_cons]

theorem processLeases_nil (store : Bool) (ts : Nat) (st : Nat × List Lease) :
    processLeases store ts [] st = st := by
  unfold processLeases
  rw [List.foldl_nil]

theorem processLeases_eq (store : Bool) (ts : Nat) :
    ∀ (js : List RawLease) (e : Nat) (ls : List Lease),
      processLeases store ts js (e, ls) =
        (expFold (js.filter (liveAt ts)) e,
         if store then foldUpserts (js.filter (liveAt ts)) ls else ls) := by
  intro js
  induction js with
  | nil =>
    intro e ls
    cases store <;> simp [processLeases, foldUpserts, expFold]
  | cons j js ih =>
    intro e ls
    rw [processLeases_cons]
    by_cases hl : ts < add64 j.endDate LEASE_ENDDATE_THRESHOLD
    · have hfil : (j :: js).filter (liveAt ts) = j :: js.filter (liveAt ts) :=
        List.filter_cons_of_pos (by simp [liveAt, hl])
      have hup : UpdateLease store ts (e, ls) j =
          ((if j.endDate > e then j.endDate else e),
           if store then upsertLease j ls else ls) := by
        unfold UpdateLease
        rw [if_pos hl]
      rw [hup, ih, hfil]
      cases store
      · simp [expFold, List.foldl_cons]
      · simp [expFold, List.foldl_cons, foldUpserts_cons]
    · have hfil : (j :: js).filter (liveAt ts) = js.filter (liveAt ts) :=
        List.filter_cons_of_neg (by simp [liveAt, hl])
      have hup : UpdateLease store ts (e, ls) j = (e, ls) := by
        unfold UpdateLease
        rw [if_neg hl]
      rw [hup, ih, hfil]

theorem ReadFromBuffer_storeLeases (ident : IdentityEx) (v : Bool) (buf : List Nat)
    (ts : Nat) (s : LSState) :
    (ReadFromBuffer ident v buf ts s).st.storeLeases = s.storeLeases := by
  simp only [ReadFromBuffer]
  split_ifs <;> rfl

theorem ReadFromBuffer_leases (ident : IdentityEx) (v : Bool) (buf : List Nat)
    (ts : Nat) (s : LSState) :
    (ReadFromBuffer ident v buf ts s).st.leases =
      if ident.fullLen > buf.length then s.leases
      else if legacyNum ident buf = 0 ∨ legacyNum ident buf > MAX_NUM_LEASES then s.leases
      else if s.storeLeases then
        (if expFold ((legacyJs ident buf).filter (liveAt ts)) 0 = 0 then
          foldUpserts ((legacyJs ident buf).filter (liveAt ts)) (markAll s.leases)
        else keepUpdated (foldUpserts ((legacyJs ident buf).filter (liveAt ts)) (markAll s.leases)))
      else [] := by
  simp only [ReadFromBuffer, legacyNum, legacyJs, UpdateLeasesBegin, UpdateLeasesEnd, markAll,
    keepUpdated]
  by_cases h1 : ident.fullLen > buf.length
  · rw [if_pos h1, if_pos h1]
  · rw [if_neg h1, if_neg h1]
    by_cases h2 : byteAt buf (ident.fullLen + 256 + ident.signingPublicKeyLen) = 0 ∨
        byteAt buf (ident.fullLen + 256 + ident.signingPublicKeyLen) > MAX_NUM_LEASES
    · rw [if_pos h2, if_pos h2]
    · rw [if_neg h2, if_neg h2]
      rw [processLeases_eq]
      cases hs : s.storeLeases
      · simp only [Bool.false_eq_true, if_false]
        by_cases h3 : expFold
            ((parseLeases buf (ident.fullLen + 256 + ident.signingPublicKeyLen + 1)
              (byteAt buf (ident.fullLen + 256 + ident.signingPublicKeyLen))).filter (liveAt ts)) 0 = 0
        · rw [if_pos h3]
        · rw [if_neg h3]
          split_ifs <;> rfl
      · simp only [if_true]
        by_cases h3 : expFold
            ((parseLeases buf (ident.fullLen + 256 + ident.signingPublicKeyLen + 1)
              (byteAt buf (ident.fullLen + 256 + ident.signingPublicKeyLen))).filter (liveAt ts)) 0 = 0
        · rw [if_pos h3, if_pos h3]
        · rw [if_neg h3, if_neg h3]
          split_ifs <;> rfl

/-- C5: running the full legacy decode twice in a row on an identical buffer
at the same time instant leaves the lease set identical to the result of
running it once — no duplicate entries are created and no lease present
after the first run is expired or removed by the second run, for every
record state, identity, verification mode and input buffer. -/
theorem C5_reconciliation_idempotent (ident : IdentityEx) (v : Bool) (buf : List Nat)
    (ts : Nat) (s : LSState) :
    (ReadFromBuffer ident v buf ts (ReadFromBuffer ident v buf ts s).st).st.leases =
      (ReadFromBuffer ident v buf ts s).st.leases := by
  simp only [ReadFromBuffer_leases, ReadFromBuffer_storeLeases]
  by_cases h1 : ident.fullLen > buf.length
  · simp [h1]
  · by_cases h2 : legacyNum ident buf = 0 ∨ legacyNum ident buf > MAX_NUM_LEASES
    · simp [h1, h2]
    · cases hsl : s.storeLeases
      · simp [h1, h2, hsl]
      · by_cases h3 : expFold ((legacyJs ident buf).filter (liveAt ts)) 0 = 0
        · simp [h1, h2, hsl, h3, foldUpserts_mark_idem]
        · simp [h1, h2, hsl, h3, foldUpserts_keep_idem]

/-- C3: when the legacy decode with signature verification requested parses a
structurally valid buffer (the same decode without verification yields a
valid record) whose signature fails to verify, the record becomes invalid
but its lease set and aggregate expiration time are exactly those of the
completed reconciliation — the reconciled state is retained, not rolled
back. -/
theorem C3_signature_failure_retains_reconciled_state (ident : IdentityEx) (buf : List Nat)
    (ts : Nat) (s : LSState)
    (hvalid : (ReadFromBuffer ident false buf ts s).st.isValid = true)
    (hfail : ident.verify (buf.take (legacyDataEnd ident buf))
        (sliceBytes buf (legacyDataEnd ident buf) ident.signatureLen) = false) :
    (ReadFromBuffer ident true buf ts s).st.isValid = false ∧
    (ReadFromBuffer ident true buf ts s).st.leases =
      (ReadFromBuffer ident false buf ts s).st.leases ∧
    (ReadFromBuffer ident true buf ts s).st.expirationTime =
      (ReadFromBuffer ident false buf ts s).st.expirationTime := by
  simp only [legacyDataEnd] at hfail
  simp only [ReadFromBuffer] at hvalid ⊢
  by_cases h1 : ident.fullLen > buf.length
  · rw [if_pos h1] at hvalid
    simp at hvalid
  simp only [if_neg h1] at hvalid ⊢
  by_cases h2 : byteAt buf (ident.fullLen + 256 + ident.signingPublicKeyLen) = 0 ∨
      byteAt buf (ident.fullLen + 256 + ident.signingPublicKeyLen) > MAX_NUM_LEASES
  · rw [if_pos h2] at hvalid
    simp at hvalid
  simp only [if_neg h2] at hvalid ⊢
  by_cases h3 : (processLeases s.storeLeases ts
      (parseLeases buf (ident.fullLen + 256 + ident.signingPublicKeyLen + 1)
        (byteAt buf (ident.fullLen + 256 + ident.signingPublicKeyLen)))
      (0, UpdateLeasesBegin s.storeLeases s.leases)).1 = 0
  · rw [if_pos h3] at hvalid
    simp at hvalid
  simp only [if_neg h3] at hvalid ⊢
  simp [hfail]

/-- C3 witness: a concrete structurally valid one-lease buffer under an
identity whose verification fails; the verified decode is invalid yet keeps
the reconciled leases and expiration of the unverified decode. -/
theorem C3_signature_failure_witness :
    (ReadFromBuffer identWFail true legacyBufC3 0 (initialLSState true)).st.isValid = false ∧
    (ReadFromBuffer identWFail true legacyBufC3 0 (initialLSState true)).st.leases =
      (ReadFromBuffer identWFail false legacyBufC3 0 (initialLSState true)).st.leases ∧
    (ReadFromBuffer identWFail true legacyBufC3 0 (initialLSState true)).st.expirationTime =
      (ReadFromBuffer identWFail false legacyBufC3 0 (initialLSState true)).st.expirationTime :=
  C3_signature_failure_retains_reconciled_state identWFail legacyBufC3 0 (initialLSState true)
    (by decide) (by decide)

/-- C4: a materializing record holding leases A, B, C (pairwise distinct
(gateway, tunnelId) keys) that reconciles an incoming record containing
exactly the non-expired leases A (same key, new end date) and D (fresh key)
ends with the set containing exactly A with its end date overwritten and D;
the removed leases B and C are returned with endDate = 0 (set before they
are dropped), so any holder of a reference to them observes endDate = 0. -/
theorem C4_reconciliation_mark_update_prune (A B C : Lease) (Ain D : RawLease) (ts : Nat)
    (hAkey : Ain.key = A.key)
    (hAB : A.key ≠ B.key) (hAC : A.key ≠ C.key)
    (hDA : D.key ≠ A.key) (hDB : D.key ≠ B.key) (hDC : D.key ≠ C.key)
    (hAlive : ts < add64 Ain.endDate LEASE_ENDDATE_THRESHOLD)
    (hDlive : ts < add64 D.endDate LEASE_ENDDATE_THRESHOLD) :
    (UpdateLeasesEnd true (processLeases true ts [Ain, D]
        (0, UpdateLeasesBegin true [A, B, C])).2).1 =
      [{ A with endDate := Ain.endDate, isUpdated := true },
       { tunnelGateway := D.tunnelGateway, tunnelID := D.tunnelID,
         endDate := D.endDate, isUpdated := true }] ∧
    (UpdateLeasesEnd true (processLeases true ts [Ain, D]
        (0, UpdateLeasesBegin true [A, B, C])).2).2 =
      [{ B with endDate := 0, isUpdated := false },
       { C with endDate := 0, isUpdated := false }] := by
  have hAA : (({ A with isUpdated := false } : Lease)).key = Ain.key := by
    rw [show (({ A with isUpdated := false } : Lease)).key = A.key from rfl, hAkey]
  have hBA : ¬ (({ B with isUpdated := false } : Lease)).key = Ain.key := by
    rw [show (({ B with isUpdated := false } : Lease)).key = B.key from rfl, hAkey]
    exact fun hc => hAB hc.symm
  have hCA : ¬ (({ C with isUpdated := false } : Lease)).key = Ain.key := by
    rw [show (({ C with isUpdated := false } : Lease)).key = C.key from rfl, hAkey]
    exact fun hc => hAC hc.symm
  have e0 : UpdateLeasesBegin true [A, B, C] =
      [({ A with isUpdated := false } : Lease), { B with isUpdated := false },
       { C with isUpdated := false }] := by
    simp [UpdateLeasesBegin]
  have e1 : upsertLease Ain
      [({ A with isUpdated := false } : Lease), { B with isUpdated := false },
       { C with isUpdated := false }] =
      [{ A with endDate := Ain.endDate, isUpdated := true },
       { B with isUpdated := false }, { C with isUpdated := false }] := by
    unfold upsertLease
    rw [if_pos ⟨_, List.mem_cons_self _ _, hAA⟩]
    simp only [List.map_cons, List.map_nil, if_pos hAA, if_neg hBA, if_neg hCA]
  have hnex : ¬ ∃ x ∈ [({ A with endDate := Ain.endDate, isUpdated := true } : Lease),
      { B with isUpdated := false }, { C with isUpdated := false }], x.key = D.key := by
    rintro ⟨x, hx, he⟩
    simp only [List.mem_cons, List.not_mem_nil, or_false] at hx
    rcases hx with rfl | rfl | rfl
    · exact hDA he.symm
    · exact hDB he.symm
    · exact hDC he.symm
  have e2 : upsertLease D
      [({ A with endDate := Ain.endDate, isUpdated := true } : Lease),
       { B with isUpdated := false }, { C with isUpdated := false }] =
      [{ A with endDate := Ain.endDate, isUpdated := true },
       { B with isUpdated := false }, { C with isUpdated := false },
       { tunnelGateway := D.tunnelGateway, tunnelID := D.tunnelID,
         endDate := D.endDate, isUpdated := true }] := by
    unfold upsertLease
    rw [if_neg hnex]
    rfl
  have p2 : (processLeases true ts [Ain, D] (0, UpdateLeasesBegin true [A, B, C])).2 =
      [({ A with endDate := Ain.endDate, isUpdated := true } : Lease),
       { B with isUpdated := false }, { C with isUpdated := false },
       { tunnelGateway := D.tunnelGateway, tunnelID := D.tunnelID,
         endDate := D.endDate, isUpdated := true }] := by
    rw [processLeases_cons, processLeases_cons, processLeases_nil]
    unfold UpdateLease
    rw [if_pos hAlive, if_pos hDlive]
    simp [e0, e1, e2]
  rw [p2]
  constructor <;> rfl

/-- C4 witness: a concrete instance with leases keyed (gw,1),(gw,2),(gw,3)
reconciled against incoming (gw,1) and (gw,4). -/
theorem C4_reconciliation_witness :
    (UpdateLeasesEnd true (processLeases true 0
        [{ tunnelGateway := zeros 32, tunnelID := 1, endDate := 500000 },
         { tunnelGateway := zeros 32, tunnelID := 4, endDate := 400000 }]
        (0, UpdateLeasesBegin true
          [{ tunnelGateway := zeros 32, tunnelID := 1, endDate := 100000, isUpdated := true },
           { tunnelGateway := zeros 32, tunnelID := 2, endDate := 200000, isUpdated := false },
           { tunnelGateway := zeros 32, tunnelID := 3, endDate := 300000, isUpdated := true }])).2).1 =
      [{ tunnelGateway := zeros 32, tunnelID := 1, endDate := 500000, isUpdated := true },
       { tunnelGateway := zeros 32, tunnelID := 4, endDate := 400000, isUpdated := true }] ∧
    (UpdateLeasesEnd true (processLeases true 0
        [{ tunnelGateway := zeros 32, tunnelID := 1, endDate := 500000 },
         { tunnelGateway := zeros 32, tunnelID := 4, endDate := 400000 }]
        (0, UpdateLeasesBegin true
          [{ tunnelGateway := zeros 32, tunnelID := 1, endDate := 100000, isUpdated := true },
           { tunnelGateway := zeros 32, tunnelID := 2, endDate := 200000, isUpdated := false },
           { tunnelGateway := zeros 32, tunnelID := 3, endDate := 300000, isUpdated := true }])).2).2 =
      [{ tunnelGateway := zeros 32, tunnelID := 2, endDate := 0, isUpdated := false },
       { tunnelGateway := zeros 32, tunnelID := 3, endDate := 0, isUpdated := false }] :=
  C4_reconciliation_mark_update_prune
    { tunnelGateway := zeros 32, tunnelID := 1, endDate := 100000, isUpdated := true }
    { tunnelGateway := zeros 32, tunnelID := 2, endDate := 200000, isUpdated := false }
    { tunnelGateway := zeros 32, tunnelID := 3, endDate := 300000, isUpdated := true }
    { tunnelGateway := zeros 32, tunnelID := 1, endDate := 500000 }
    { tunnelGateway := zeros 32, tunnelID := 4, endDate := 400000 } 0
    (by decide) (by decide) (by decide) (by decide) (by decide) (by decide)
    (by decide) (by decide)

theorem add64_eq (a b : Nat) (h : a + b < 2^64) : add64 a b = a + b := by
  unfold add64
  exact Nat.mod_eq_of_lt h

theorem sub64_eq (a b : Nat) (hb : b ≤ a) (ha : a < 2^64) : sub64 a b = a - b := by
  unfold sub64
  have hba : b < 2^64 := lt_of_le_of_lt hb ha
  rw [Nat.mod_eq_of_lt ha, Nat.mod_eq_of_lt hba,
    show a + 2^64 - b = 2^64 + (a - b) from by omega,
    Nat.add_mod_left, Nat.mod_eq_of_lt (by omega)]

/-- C8: with window `dlt = 0` and jitter `fudge = 0`, `ExpiresSoon` is true
iff the current time has reached the aggregate expiration time, including
exactly at the boundary instant `now = expirationTime` (for any uint64
values and any rand outcome). -/
theorem C8_expires_soon_boundary (expirationTime now randv : Nat)
    (hexp : expirationTime < 2^64) (hnow : now < 2^64) :
    ExpiresSoon expirationTime 0 0 randv now = true ↔ expirationTime ≤ now := by
  simp only [ExpiresSoon]
  rw [if_neg (show ¬((0 : Nat) ≠ 0) from by simp)]
  by_cases h : now ≥ expirationTime
  · rw [if_pos h]
    simp [h]
  · rw [if_neg h]
    have hlt : now < expirationTime := Nat.lt_of_not_le h
    rw [sub64_eq expirationTime now (Nat.le_of_lt hlt) hexp]
    simp only [decide_eq_true_eq, Nat.le_zero]
    omega

/-- C8 witness: at the exact boundary instant `now = expirationTime = 5` the
record already counts as expiring soon. -/
theorem C8_expires_soon_witness :
    (5 : Nat) < 2^64 ∧ ExpiresSoon 5 0 0 0 5 = true :=
  ⟨by decide, (C8_expires_soon_boundary 5 5 0 (by decide) (by decide)).mpr (Nat.le_refl 5)⟩

/-- C7 counterexample: for a held lease with endDate 0 (the zombie value) at
ts equal to the threshold, the strict call (withThreshold = false) returns
the lease — the uint64 subtraction wraps around — while the permissive call
(withThreshold = true) drops it, so the permissive result is not a superset
of the strict result as the claim states. -/
theorem C7_threshold_not_superset :
    ({ tunnelGateway := zeros 32, tunnelID := 1, endDate := 0, isUpdated := true } : Lease) ∈
      GetNonExpiredLeasesExcluding (fun _ => false) false LEASE_ENDDATE_THRESHOLD
        [{ tunnelGateway := zeros 32, tunnelID := 1, endDate := 0, isUpdated := true }] ∧
    ({ tunnelGateway := zeros 32, tunnelID := 1, endDate := 0, isUpdated := true } : Lease) ∉
      GetNonExpiredLeasesExcluding (fun _ => false) true LEASE_ENDDATE_THRESHOLD
        [{ tunnelGateway := zeros 32, tunnelID := 1, endDate := 0, isUpdated := true }] := by
  decide

/-- C7 amended: provided no held lease underflows or overflows the uint64
threshold adjustment (threshold ≤ endDate and endDate + threshold < 2^64),
every lease returned by the strict call (withThreshold = false) is also
returned by the permissive call (withThreshold = true), for the same
exclusion predicate and the same instant. -/
theorem C7_threshold_superset_of_no_underflow (exclude : Lease → Bool) (ts : Nat)
    (ls : List Lease)
    (h : ∀ l ∈ ls, LEASE_ENDDATE_THRESHOLD ≤ l.endDate ∧
         l.endDate + LEASE_ENDDATE_THRESHOLD < 2^64) :
    ∀ l, l ∈ GetNonExpiredLeasesExcluding exclude false ts ls →
      l ∈ GetNonExpiredLeasesExcluding exclude true ts ls := by
  intro l hl
  unfold GetNonExpiredLeasesExcluding at hl ⊢
  rw [List.mem_filter] at hl ⊢
  obtain ⟨hmem, hp⟩ := hl
  refine ⟨hmem, ?_⟩
  obtain ⟨h1, h2⟩ := h l hmem
  simp only [Bool.and_eq_true, decide_eq_true_eq, Bool.false_eq_true, if_false, if_true] at hp ⊢
  obtain ⟨hdate, hexcl⟩ := hp
  refine ⟨?_, hexcl⟩
  rw [sub64_eq l.endDate LEASE_ENDDATE_THRESHOLD h1 (by omega)] at hdate
  rw [add64_eq l.endDate LEASE_ENDDATE_THRESHOLD h2]
  omega

/-- C7 witness: a concrete record with one comfortably dated lease, where
the strict selection is indeed contained in the permissive one. -/
theorem C7_superset_witness :
    ({ tunnelGateway := zeros 32, tunnelID := 1, endDate := 600000, isUpdated := true } : Lease) ∈
      GetNonExpiredLeasesExcluding (fun _ => false) true 100000
        [{ tunnelGateway := zeros 32, tunnelID := 1, endDate := 600000, isUpdated := true }] :=
  C7_threshold_superset_of_no_underflow (fun _ => false) 100000
    [{ tunnelGateway := zeros 32, tunnelID := 1, endDate := 600000, isUpdated := true }]
    (by decide) _ (by decide)

theorem extractLoop_eq_dateFold (buf : List Nat) :
    ∀ (n off t : Nat), extractLoop buf off n t = dateFold (endDatesFrom buf off n) t := by
  intro n
  induction n with
  | zero => intro off t; rfl
  | succ n ih =>
    intro off t
    simp only [extractLoop, endDatesFrom, dateFold, List.foldl_cons]
    rw [← dateFold, ih]

theorem dateFold_nonzero (ds : List Nat) :
    ∀ t, t ≠ 0 → (∀ e ∈ ds, e ≠ 0) → dateFold ds t = ds.foldl min t := by
  induction ds with
  | nil => intro t _ _; rfl
  | cons e ds ih =>
    intro t ht hnz
    have he : e ≠ 0 := hnz e (List.mem_cons_self e ds)
    have hstep : (if t = 0 ∨ e < t then e else t) = min t e := by
      rcases Nat.lt_or_ge e t with h | h
      · rw [if_pos (Or.inr h), min_eq_right (Nat.le_of_lt h)]
      · rw [if_neg (by omega), min_eq_left h]
    have hmin : min t e ≠ 0 := by
      rcases le_total t e with h | h
      · rw [min_eq_left h]; exact ht
      · rw [min_eq_right h]; exact he
    have hunf : dateFold (e :: ds) t = dateFold ds (if t = 0 ∨ e < t then e else t) := by
      unfold dateFold
      rw [List.foldl_cons]
    rw [hunf, hstep, ih (min t e) hmin
      (fun e' he' => hnz e' (List.mem_cons_of_mem e he')), List.foldl_cons]

theorem dateFold_zero_min (ds : List Nat) (hnz : ∀ e ∈ ds, e ≠ 0) :
    dateFold ds 0 = minD ds := by
  cases ds with
  | nil => rfl
  | cons e ds =>
    have he : e ≠ 0 := hnz e (List.mem_cons_self e ds)
    have hstep : dateFold (e :: ds) 0 = dateFold ds e := by
      unfold dateFold
      rw [List.foldl_cons, if_pos (Or.inl rfl)]
    rw [hstep, dateFold_nonzero ds e he (fun e' he' => hnz e' (List.mem_cons_of_mem e he'))]
    rfl

theorem ExtractTimestamp_min (ident : IdentityEx) (buf : List Nat)
    (hb : extractBoundsOk ident buf)
    (hnz : ∀ e ∈ legacyLeaseEndDates ident buf, e ≠ 0) :
    ExtractTimestamp (Option.some ident) buf = minD (legacyLeaseEndDates ident buf) := by
  unfold extractBoundsOk LEASE_SIZE at hb
  simp only [ExtractTimestamp, ExtractTimestampR, LEASE_SIZE]
  rw [if_neg (by omega), if_neg (by omega), if_neg (by omega)]
  show extractLoop buf (ident.fullLen + 256 + ident.signingPublicKeyLen + 1)
      (byteAt buf (ident.fullLen + 256 + ident.signingPublicKeyLen)) 0 = _
  rw [extractLoop_eq_dateFold]
  unfold legacyLeaseEndDates at hnz ⊢
  exact dateFold_zero_min _ hnz

/-- C6 counterexample: a structurally complete buffer whose two lease end
dates are 0 and 5; `ExtractTimestamp` returns 5, not the minimum 0, because
a zero end date resets the running accumulator
(`if (!timestamp || endDate < timestamp)`). -/
theorem C6_extract_timestamp_not_min :
    ExtractTimestamp (Option.some identStd) legacyBufC6 = 5 ∧
    legacyLeaseEndDates identStd legacyBufC6 = [0, 5] ∧
    minD (legacyLeaseEndDates identStd legacyBufC6) = 0 ∧
    ExtractTimestamp (Option.some identStd) legacyBufC6 ≠
      minD (legacyLeaseEndDates identStd legacyBufC6) := by
  refine ⟨by decide, by decide, by decide, by decide⟩

/-- C6 amended: for buffers whose bounds checks pass and whose lease end
dates are all nonzero, `ExtractTimestamp` is the minimum lease end date, and
`IsNewer` holds iff the minimum end date of the candidate buffer strictly
exceeds that of the current buffer; buffers containing a zero end date may yield a
non-minimal value instead. -/
theorem C6_extract_timestamp_min_of_nonzero (ident : IdentityEx) (cur cand : List Nat)
    (hcurOk : extractBoundsOk ident cur) (hcandOk : extractBoundsOk ident cand)
    (hcurNZ : ∀ e ∈ legacyLeaseEndDates ident cur, e ≠ 0)
    (hcandNZ : ∀ e ∈ legacyLeaseEndDates ident cand, e ≠ 0) :
    ExtractTimestamp (Option.some ident) cand = minD (legacyLeaseEndDates ident cand) ∧
    (IsNewer (Option.some ident) cur cand = true ↔
      minD (legacyLeaseEndDates ident cur) < minD (legacyLeaseEndDates ident cand)) := by
  have h1 := ExtractTimestamp_min ident cand hcandOk hcandNZ
  have h2 := ExtractTimestamp_min ident cur hcurOk hcurNZ
  refine ⟨h1, ?_⟩
  unfold IsNewer
  rw [h1, h2, decide_eq_true_eq]

/-- C6 witness: a candidate with lease end dates 100 and 900 is not newer
than a current buffer with end dates 200 and 300 — min 100 is below min 200
even though the maximum 900 is larger. -/
theorem C6_min_witness :
    ExtractTimestamp (Option.some identW) candBufC6 = 100 ∧
    IsNewer (Option.some identW) curBufC6 candBufC6 = false := by
  have h := C6_extract_timestamp_min_of_nonzero identW curBufC6 candBufC6
    (by unfold extractBoundsOk; decide) (by unfold extractBoundsOk; decide)
    (by decide) (by decide)
  refine ⟨h.1.trans (by decide), ?_⟩
  have hnot : ¬ (IsNewer (Option.some identW) curBufC6 candBufC6 = true) := by
    intro hc
    have := h.2.mp hc
    revert this
    decide
  exact Bool.not_eq_true _ ▸ hnot

/-- C10 counterexample: a buffer whose length is exactly identity + 256-byte
key + signing key leaves no room for the lease-count byte; the claim says
such a truncated candidate is handled without reading past the length, but
the `size > len` check lets `size = len` through and the count read touches
index len — the model records the out-of-bounds read (the value 0 and the
not-newer verdict still hold). -/
theorem C10_extract_timestamp_boundary_oob :
    (ExtractTimestampR (Option.some identStd) (zeros 771)).2 = true ∧
    (ExtractTimestampR (Option.some identStd) (zeros 771)).1 = 0 ∧
    identStd.fullLen + 256 + identStd.signingPublicKeyLen = (zeros 771).length := by
  refine ⟨by decide, by decide, by decide⟩

/-- C10 amended: for every candidate whose identity header, key region or
declared lease array does not fit in the supplied length, `ExtractTimestamp`
returns 0 and `IsNewer` returns false; all reads stay below the length
except that in the exact boundary case, where the length equals identity +
256 + signing-key length, the single lease-count byte at index len (one past
the end) is read. -/
theorem C10_truncated_candidate_never_newer (ident : IdentityEx) (cur cand : List Nat)
    (h : ident.fullLen > cand.length ∨
         ident.fullLen + 256 + ident.signingPublicKeyLen ≥ cand.length ∨
         ident.fullLen + 256 + ident.signingPublicKeyLen + 1 +
           byteAt cand (ident.fullLen + 256 + ident.signingPublicKeyLen) * LEASE_SIZE >
           cand.length) :
    ExtractTimestamp (Option.some ident) cand = 0 ∧
    IsNewer (Option.some ident) cur cand = false ∧
    ((ExtractTimestampR (Option.some ident) cand).2 = true →
      ident.fullLen + 256 + ident.signingPublicKeyLen = cand.length) := by
  have hcore : (ExtractTimestampR (Option.some ident) cand).1 = 0 ∧
      ((ExtractTimestampR (Option.some ident) cand).2 = true →
        ident.fullLen + 256 + ident.signingPublicKeyLen = cand.length) := by
    simp only [ExtractTimestampR]
    by_cases h1 : ident.fullLen > cand.length
    · rw [if_pos h1]
      exact ⟨rfl, by simp⟩
    · rw [if_neg h1]
      by_cases h2 : ident.fullLen + 256 + ident.signingPublicKeyLen > cand.length
      · rw [if_pos h2]
        exact ⟨rfl, by simp⟩
      · rw [if_neg h2]
        have h3 : ident.fullLen + 256 + ident.signingPublicKeyLen + 1 +
            byteAt cand (ident.fullLen + 256 + ident.signingPublicKeyLen) * LEASE_SIZE >
            cand.length := by
          rcases h with h | h | h
          · omega
          · omega
          · exact h
        rw [if_pos h3]
        refine ⟨rfl, fun hoob => ?_⟩
        rw [decide_eq_true_eq] at hoob
        omega
  have hext : ExtractTimestamp (Option.some ident) cand = 0 := hcore.1
  refine ⟨hext, ?_, hcore.2⟩
  unfold IsNewer
  rw [hext]
  simp

/-- C10 witness: a 300-byte candidate declaring 5 leases (5 * 44 bytes do
not fit) yields timestamp 0 and is never judged newer than the current
buffer. -/
theorem C10_truncated_witness :
    ExtractTimestamp (Option.some identW) candBufC10 = 0 ∧
    IsNewer (Option.some identW) legacyBufC3 candBufC10 = false ∧
    ((ExtractTimestampR (Option.some identW) candBufC10).2 = true →
      identW.fullLen + 256 + identW.signingPublicKeyLen = candBufC10.length) :=
  C10_truncated_candidate_never_newer identW legacyBufC3 candBufC10
    (Or.inr (Or.inr (by decide)))

/-- C2 counterexample: a v2 standard buffer whose lease-count byte is 0 is
accepted as valid when its signature verifies —
`ReadStandardLS2TypeSpecificPart` has no check on the declared lease count,
so the claim fails for the v2 standard format. -/
theorem C2_ls2_zero_leases_accepted :
    (LS2ReadFromBuffer NETDB_STORE_TYPE_STANDARD_LEASESET2 identStd
        (fun _ => Option.none) (fun t k => Option.some (t, k)) true 0 ls2BufC2).isValid = true ∧
    byteAt ls2BufC2 406 = 0 ∧
    (LS2ReadFromBuffer NETDB_STORE_TYPE_STANDARD_LEASESET2 identStd
        (fun _ => Option.none) (fun t k => Option.some (t, k)) true 0 ls2BufC2).leases = [] := by
  refine ⟨by decide, by decide, by decide⟩

/-- C2 amended: the legacy decode marks the record invalid whenever the
declared lease count is zero or exceeds MAX_NUM_LEASES (for any state,
verification mode and time); the v2 standard decoder performs no such count
check. -/
theorem C2_legacy_lease_count_invalid (ident : IdentityEx) (v : Bool) (buf : List Nat)
    (ts : Nat) (s : LSState)
    (hfit : ident.fullLen ≤ buf.length)
    (hnum : legacyNum ident buf = 0 ∨ legacyNum ident buf > MAX_NUM_LEASES) :
    (ReadFromBuffer ident v buf ts s).st.isValid = false := by
  unfold legacyNum at hnum
  simp only [ReadFromBuffer]
  rw [if_neg (by omega), if_pos hnum]

/-- C2 witness: a minimal legacy buffer with lease-count byte 0 decodes to
an invalid record. -/
theorem C2_legacy_lease_count_invalid_witness :
    (ReadFromBuffer identW false legacyBufC2w 0 (initialLSState true)).st.isValid = false :=
  C2_legacy_lease_count_invalid identW false legacyBufC2w 0 (initialLSState true)
    (by decide) (Or.inl (by decide))

/-- C1: the code violates the claim — a valid legacy record buffer (its full
decode is valid) truncated at the end of the identity, strictly before the
signature offset, still makes both `ReadFromBuffer` and
`LeaseSetBufferValidate` read bytes at indices at and past the supplied
length (the 256-byte encryption-key copy and the lease-count byte have no
bounds check after the identity length check), contradicting the contract
that the decode never reads past the supplied length. -/
theorem C1_truncated_decode_reads_out_of_bounds :
    (ReadFromBuffer identStd true legacyBufC1 0 (initialLSState true)).st.isValid = true ∧
    (ReadFromBuffer identStd true legacyBufC1 0 (initialLSState true)).oob = false ∧
    387 < legacyDataEnd identStd legacyBufC1 ∧
    (ReadFromBuffer identStd true (legacyBufC1.take 387) 0 (initialLSState true)).oob = true ∧
    (LeaseSetBufferValidate identStd (legacyBufC1.take 387)).oob = true := by
  refine ⟨by decide, by decide, by decide, by decide, by decide⟩

/-- C9: the code violates the claim — with one tunnel whose end date
(600 s) is earlier than the published timestamp (700 s), the intended clamp
`expires > 0 ? expires : 0` never fires because `expires` is unsigned: the
2-byte relative-expiry field holds (600 - 700) wrapped and truncated, 65436,
instead of the claimed 0. -/
theorem C9_ls2_expires_field_not_clamped :
    tunnelEndDateSec { nextIdentHash := zeros 32, nextTunnelID := 1, creationTime := 0 } = 600 ∧
    (600 : Nat) < 700 ∧
    bufbe16toh (LocalLeaseSet2 NETDB_STORE_TYPE_STANDARD_LEASESET2 (zeros 387) 40 0 4 (zeros 4)
        [{ nextIdentHash := zeros 32, nextTunnelID := 1, creationTime := 0 }] 700).buffer
      (1 + 387 + 4) = 65436 ∧
    (65436 : Nat) ≠ 0 := by
  refine ⟨by decide, by decide, by decide, by decide⟩
